import Mathlib

/-!
fx-processor: verification of the batch rendering pipeline and the
equalizer transform.

Shallow embedding of the core of the `fx-processor` repository:

* the 40-band graphic equalizer (`socialfx/dsp_utils/original/equalizer.js`),
  with its curve-normalization policy, curve setter, and range setter;
* the job deriver for the EQ pipeline (`prepare_data.js`, the unnamed source
  `part_001`), including its derive-time idempotency skip;
* the batch processor of the EQ html renderer (`part_002`) and of the reverb
  html renderer (`process_audio.html`), including the existence probe
  `checkFileExists` and the completion-signal logic;
* the `/save` endpoint's preset-sidecar copy logic
  (`audealize_reverb/html_processor/server.js`);
* the WAV encoder `bufferToWave`.

JS numbers are modelled as `ℚ` (with `Option ℚ` where `undefined`/`NaN` can
arise), JS strings as `List Char`, and the filesystem / HTTP probes as
explicit function parameters.
-/

set_option maxRecDepth 4000

namespace FxProcessor

/-! ## Equalizer (socialfx/dsp_utils/original/equalizer.js)

State of an `Equalizer` object.  `gains i` is the value held by
`filters[i].gain` for the 40 bands; `none` models a non-finite value
(`NaN`, arising from arithmetic on `undefined`). -/

structure EqState where
  normalize : Bool
  curve : List ℚ
  range : ℚ
  gains : ℕ → Option ℚ

/-- Value of `max_el` after the first loop of the curve setter: starts at `0`
and takes the maximum over the incoming values (equalizer.js lines 89-98). -/
def max_el (value : List ℚ) : ℚ := value.foldl max 0

/-- Value of `min_el` after the first loop of the curve setter: starts at `0`
and takes the minimum over the incoming values (equalizer.js lines 89-98). -/
def min_el (value : List ℚ) : ℚ := value.foldl min 0

/-- One normalized curve entry: `dat = value[i] - min_el;
dat = dat / (max_el - min_el) * 2; push(dat - 1)` (equalizer.js lines 102-105). -/
def normalizeVal (mn mx v : ℚ) : ℚ := (v - mn) / (mx - mn) * 2 - 1

/-- The `curve` setter (equalizer.js lines 84-113).  Returns the updated state
together with the setter's return value: `some (-1)` when the length check
fails (the early `return -1`, before any mutation), `none` otherwise.

When `normalize` is set and `max_el == min_el`, the loop body pushes nothing,
so `param.curve` stays `[]`; the final `gain.setValueAtTime(range * 5 *
param.curve[i])` then reads `undefined` and computes `NaN`, modelled by the
`Option.map` over `List.get?`. -/
def setCurve (st : EqState) (value : List ℚ) : EqState × Option ℤ :=
  if value.length ≠ 40 then (st, some (-1))
  else
    let mn := min_el value
    let mx := max_el value
    let newCurve :=
      if st.normalize then
        if mx = mn then [] else value.map (normalizeVal mn mx)
      else value
    ({ st with
        curve := newCurve,
        gains := fun i =>
          if i < 40 then (newCurve.get? i).map (fun c => st.range * 5 * c)
          else st.gains i },
      none)

/-- The `Equalizer` constructor (equalizer.js lines 12-43): stores `opts.curve`
raw, defaults `range` to `1` when it is `undefined`, and sets each band's gain
to the *raw* curve value `this.param.curve[i]` (line 35) — the normalization
step does not run at construction. -/
def mkEqualizer (curve : List ℚ) (rangeOpt : Option ℚ) : EqState :=
  { normalize := true
    curve := curve
    range := rangeOpt.getD 1
    gains := fun i => if i < 40 then curve.get? i else none }

/-- The `range` setter (equalizer.js lines 123-129): stores the new range and
replays the *stored* curve through the curve setter (`this.curve =
this.param.curve`); the setter's return value is discarded by the assignment. -/
def setRange (st : EqState) (v : ℚ) : EqState :=
  let st1 := { st with range := v }
  (setCurve st1 st1.curve).1

/-! ### Basic fold lemmas for `min_el` / `max_el` -/

theorem le_foldl_max (l : List ℚ) (a : ℚ) : a ≤ l.foldl max a := by
  induction l generalizing a with
  | nil => exact le_refl a
  | cons x xs ih => exact le_trans (le_max_left a x) (ih (max a x))

theorem mem_le_foldl_max (l : List ℚ) (a x : ℚ) (hx : x ∈ l) :
    x ≤ l.foldl max a := by
  induction l generalizing a with
  | nil => cases hx
  | cons y ys ih =>
    rcases List.mem_cons.mp hx with h | h
    · subst h
      exact le_trans (le_max_right a x) (le_foldl_max ys (max a x))
    · exact ih (max a y) h

theorem foldl_min_le (l : List ℚ) (a : ℚ) : l.foldl min a ≤ a := by
  induction l generalizing a with
  | nil => exact le_refl a
  | cons x xs ih => exact le_trans (ih (min a x)) (min_le_left a x)

theorem foldl_min_le_mem (l : List ℚ) (a x : ℚ) (hx : x ∈ l) :
    l.foldl min a ≤ x := by
  induction l generalizing a with
  | nil => cases hx
  | cons y ys ih =>
    rcases List.mem_cons.mp hx with h | h
    · subst h
      exact le_trans (foldl_min_le ys (min a x)) (min_le_right a x)
    · exact ih (min a y) h

theorem min_el_nonpos (l : List ℚ) : min_el l ≤ 0 := foldl_min_le l 0

theorem max_el_nonneg (l : List ℚ) : 0 ≤ max_el l := le_foldl_max l 0

theorem min_el_le_mem (l : List ℚ) (x : ℚ) (hx : x ∈ l) : min_el l ≤ x :=
  foldl_min_le_mem l 0 x hx

theorem mem_le_max_el (l : List ℚ) (x : ℚ) (hx : x ∈ l) : x ≤ max_el l :=
  mem_le_foldl_max l 0 x hx

/-- The fold of `max` either keeps its initial value or attains a member. -/
theorem foldl_max_eq_or_mem (l : List ℚ) (a : ℚ) :
    l.foldl max a = a ∨ l.foldl max a ∈ l := by
  induction l generalizing a with
  | nil => exact Or.inl rfl
  | cons x xs ih =>
    simp only [List.foldl_cons]
    rcases ih (max a x) with h | h
    · rcases max_cases a x with ⟨hm, _⟩ | ⟨hm, _⟩
      · exact Or.inl (h.trans hm)
      · exact Or.inr (by rw [h, hm]; exact List.mem_cons_self x xs)
    · exact Or.inr (List.mem_cons_of_mem x h)

/-- The fold of `min` either keeps its initial value or attains a member. -/
theorem foldl_min_eq_or_mem (l : List ℚ) (a : ℚ) :
    l.foldl min a = a ∨ l.foldl min a ∈ l := by
  induction l generalizing a with
  | nil => exact Or.inl rfl
  | cons x xs ih =>
    simp only [List.foldl_cons]
    rcases ih (min a x) with h | h
    · rcases min_cases a x with ⟨hm, _⟩ | ⟨hm, _⟩
      · exact Or.inl (h.trans hm)
      · exact Or.inr (by rw [h, hm]; exact List.mem_cons_self x xs)
    · exact Or.inr (List.mem_cons_of_mem x h)

theorem max_el_mem_of_pos (l : List ℚ) (h : 0 < max_el l) : max_el l ∈ l := by
  rcases foldl_max_eq_or_mem l 0 with h0 | hmem
  · exact absurd (lt_of_lt_of_eq h h0) (lt_irrefl 0)
  · exact hmem

theorem min_el_mem_of_neg (l : List ℚ) (h : min_el l < 0) : min_el l ∈ l := by
  rcases foldl_min_eq_or_mem l 0 with h0 | hmem
  · exact absurd (lt_of_eq_of_lt h0.symm h) (lt_irrefl 0)
  · exact hmem

/-- A common lower bound of the initial value and of all members bounds the
`min`-fold from below. -/
theorem le_foldl_min (l : List ℚ) (init a : ℚ) (hinit : a ≤ init)
    (hlb : ∀ x ∈ l, a ≤ x) : a ≤ l.foldl min init := by
  induction l generalizing init with
  | nil => exact hinit
  | cons y ys ih =>
    exact ih (min init y) (le_min hinit (hlb y (List.mem_cons_self y ys)))
      (fun x hx => hlb x (List.mem_cons_of_mem _ hx))

/-- A common upper bound of the initial value and of all members bounds the
`max`-fold from above. -/
theorem foldl_max_le (l : List ℚ) (init a : ℚ) (hinit : init ≤ a)
    (hub : ∀ x ∈ l, x ≤ a) : l.foldl max init ≤ a := by
  induction l generalizing init with
  | nil => exact hinit
  | cons y ys ih =>
    exact ih (max init y) (max_le hinit (hub y (List.mem_cons_self y ys)))
      (fun x hx => hub x (List.mem_cons_of_mem _ hx))

/-- If a member `a` is a lower bound of `l` and of the initial value, the
`min`-fold equals `a`. -/
theorem foldl_min_eq_of_mem_bound (l : List ℚ) (init a : ℚ) (ha : a ∈ l)
    (hlb : ∀ x ∈ l, a ≤ x) (hinit : a ≤ init) : l.foldl min init = a :=
  le_antisymm (foldl_min_le_mem l init a ha) (le_foldl_min l init a hinit hlb)

/-- If a member `a` is an upper bound of `l` and of the initial value, the
`max`-fold equals `a`. -/
theorem foldl_max_eq_of_mem_bound (l : List ℚ) (init a : ℚ) (ha : a ∈ l)
    (hub : ∀ x ∈ l, x ≤ a) (hinit : init ≤ a) : l.foldl max init = a :=
  le_antisymm (foldl_max_le l init a hinit hub) (mem_le_foldl_max l init a ha)

/-! ### Properties of the normalization step -/

theorem min_el_lt_max_el (v : List ℚ) (hnd : max_el v ≠ min_el v) :
    min_el v < max_el v :=
  lt_of_le_of_ne ((min_el_nonpos v).trans (max_el_nonneg v)) (Ne.symm hnd)

/-- Every entry of the normalized curve lies in `[-1, 1]` (non-degenerate
range). -/
theorem normalizeVal_mem_bounds (v : List ℚ) (hnd : max_el v ≠ min_el v) :
    ∀ c ∈ v.map (normalizeVal (min_el v) (max_el v)), -1 ≤ c ∧ c ≤ 1 := by
  intro c hc
  obtain ⟨x, hxv, rfl⟩ := List.mem_map.mp hc
  have h1 : min_el v ≤ x := min_el_le_mem v x hxv
  have h2 : x ≤ max_el v := mem_le_max_el v x hxv
  have hpos : 0 < max_el v - min_el v := sub_pos.mpr (min_el_lt_max_el v hnd)
  unfold normalizeVal
  constructor
  · have hq : 0 ≤ (x - min_el v) / (max_el v - min_el v) :=
      div_nonneg (by linarith) (le_of_lt hpos)
    linarith
  · have hq : (x - min_el v) / (max_el v - min_el v) ≤ 1 :=
      (div_le_one hpos).mpr (by linarith)
    linarith

/-- The minimum of the raw curve normalizes to `-1` (in ℚ, `0 / d = 0` even
for `d = 0`, so no side condition is needed). -/
theorem normalizeVal_at_min (mn mx : ℚ) : normalizeVal mn mx mn = -1 := by
  simp [normalizeVal]

/-- The maximum of the raw curve normalizes to `1` when the range is
non-degenerate. -/
theorem normalizeVal_at_max (mn mx : ℚ) (h : mx ≠ mn) :
    normalizeVal mn mx mx = 1 := by
  have hd : mx - mn ≠ 0 := sub_ne_zero.mpr h
  field_simp [normalizeVal]
  norm_num

/-- Normalizing with the degenerate-free endpoints `-1` and `1` is the
identity. -/
theorem normalizeVal_neg_one_one (x : ℚ) : normalizeVal (-1) 1 x = x := by
  unfold normalizeVal
  ring_nf

/-! ## C7 — normalized curve entries lie in `[-1, 1]` -/

/-- C7: for every length-40 curve with a non-degenerate effective range
(`max_el ≠ min_el`, where both fold in `0`), every entry stored by the curve
setter — i.e. `((curve[i] - min_el) / (max_el - min_el)) * 2 - 1` — lies in
the closed interval `[-1, 1]`. -/
theorem setCurve_normalized_in_unit (st : EqState) (v : List ℚ)
    (hn : st.normalize = true) (h40 : v.length = 40)
    (hnd : max_el v ≠ min_el v) :
    ∀ c ∈ ((setCurve st v).1).curve, -1 ≤ c ∧ c ≤ 1 := by
  have hlen : ¬ (v.length ≠ 40) := by simp [h40]
  intro c hc
  simp only [setCurve, hlen, if_false, hn, if_true, hnd, ite_false] at hc
  exact normalizeVal_mem_bounds v hnd c hc

/-- C7 witness: the bound at the entry normalized from the first value of a
concrete non-degenerate length-40 curve. -/
theorem setCurve_normalized_in_unit_witness :
    -1 ≤ normalizeVal (min_el (List.replicate 39 (0:ℚ) ++ [1]))
        (max_el (List.replicate 39 (0:ℚ) ++ [1])) 0 ∧
      normalizeVal (min_el (List.replicate 39 (0:ℚ) ++ [1]))
        (max_el (List.replicate 39 (0:ℚ) ++ [1])) 0 ≤ 1 :=
  setCurve_normalized_in_unit (mkEqualizer (List.replicate 40 0) none)
    (List.replicate 39 (0:ℚ) ++ [1]) rfl (by decide) (by decide) _
    (List.mem_map_of_mem _
      (by decide : (0:ℚ) ∈ List.replicate 39 (0:ℚ) ++ [1]))

/-! ## C8 — wrong-length curves are rejected without any change -/

/-- C8: setting a curve whose length is not 40 hits the early `return -1` of
the setter: the operation signals the error sentinel and the state — stored
curve, range, and all filter gains — is returned unchanged. -/
theorem setCurve_rejects_wrong_length (st : EqState) (v : List ℚ)
    (h : v.length ≠ 40) : setCurve st v = (st, some (-1)) := by
  simp [setCurve, h]

/-- C8 witness: the empty curve is rejected and the equalizer state is kept. -/
theorem setCurve_rejects_wrong_length_witness :
    setCurve (mkEqualizer (List.replicate 40 0) none) [] =
      (mkEqualizer (List.replicate 40 0) none, some (-1)) :=
  setCurve_rejects_wrong_length _ _ (by decide)

/-! ## C1 — the degenerate-range case produces `NaN` gains, not 0 dB

With `min_el = min(0, min curve)` and `max_el = max(0, max curve)`, the
degenerate case `max_el = min_el` forces both to be `0`, i.e. every curve
value is `0`.  The setter's loop then pushes nothing into `param.curve`, and
`gain.setValueAtTime(range * 5 * param.curve[i])` reads `undefined`,
producing `NaN` (modelled `none`) for all 40 bands — not the 0 dB the spec
requires. -/

/-- C1 evaluation at the failing input: the all-zero length-40 curve is
degenerate; the code leaves the stored curve empty and every band gain is
`NaN` (`none`), contradicting the claim of 0 dB gains and no NaN. -/
theorem setCurve_degenerate_nan_eval :
    (((setCurve (mkEqualizer (List.replicate 40 0) none)
        (List.replicate 40 (0:ℚ))).1).curve = []) ∧
    (∀ i : Fin 40, ((setCurve (mkEqualizer (List.replicate 40 0) none)
        (List.replicate 40 (0:ℚ))).1).gains i.val = none) := by
  constructor
  · decide
  · decide

/-! ### Unfolding lemmas for the successful setter paths -/

/-- Successful run of the curve setter (length 40, normalization on,
non-degenerate range). -/
theorem setCurve_ok (st : EqState) (v : List ℚ) (hn : st.normalize = true)
    (h40 : v.length = 40) (hnd : max_el v ≠ min_el v) :
    (setCurve st v).1 = { st with
      curve := v.map (normalizeVal (min_el v) (max_el v)),
      gains := fun i => if i < 40
        then ((v.map (normalizeVal (min_el v) (max_el v))).get? i).map
          (fun c => st.range * 5 * c)
        else st.gains i } := by
  simp [setCurve, h40, hn, hnd]

/-- The range setter replays the stored curve through the curve setter; on a
well-formed stored curve this re-normalizes it. -/
theorem setRange_ok (st : EqState) (r : ℚ) (hn : st.normalize = true)
    (h40 : st.curve.length = 40) (hnd : max_el st.curve ≠ min_el st.curve) :
    setRange st r = { st with
      range := r
      curve := st.curve.map (normalizeVal (min_el st.curve) (max_el st.curve))
      gains := fun i => if i < 40
        then ((st.curve.map (normalizeVal (min_el st.curve)
            (max_el st.curve))).get? i).map (fun c => r * 5 * c)
        else st.gains i } := by
  show (setCurve { st with range := r } st.curve).1 = _
  rw [setCurve_ok { st with range := r } _ hn h40 hnd]

/-! ## C2 — how filter gains relate to `range * 5 * normalized`

The gain formula `range * 5 * normalized` only holds after the *curve setter*
runs.  The constructor (line 35 of equalizer.js) assigns the *raw* curve value
`this.param.curve[i]` directly, without normalization and without the range
factor — and the html renderers (`process_with_data.html` line 40) construct
the `Equalizer` with `{ curve: eqParams }`, taking exactly that path. -/

/-- The curve used in the C2 counterexample. -/
def c2curve : List ℚ := 1 :: 2 :: List.replicate 38 0

/-- C2 counterexample: constructing the equalizer with curve
`[1, 2, 0, …, 0]` (range defaulting to 1) sets band 0's gain to the raw value
`1`, not to `range * 5 * normalized₀ = 1 * 5 * 0 = 0` as the claim requires
of every way of "giving" a curve. -/
theorem constructor_gain_raw_cex :
    (mkEqualizer c2curve none).gains 0 ≠
      some ((mkEqualizer c2curve none).range * 5 *
        normalizeVal (min_el c2curve) (max_el c2curve) 1) := by
  have hg : (mkEqualizer c2curve none).gains 0 = some 1 := by decide
  have hr : (mkEqualizer c2curve none).range = 1 := rfl
  have hmn : min_el c2curve = 0 := by decide
  have hmx : max_el c2curve = 2 := by decide
  rw [hg, hr, hmn, hmx]
  norm_num [normalizeVal]

/-- C2 amended: the gain of band `i` equals `range * 5 * normalized_i`
(range defaulting to 1 when not supplied) only when the curve is installed via
the curve setter; at construction the gain of band `i` is the raw curve value
`curve[i]` with no normalization and no range factor. -/
theorem eq_gain_formula (curve : List ℚ) (rOpt : Option ℚ) (st : EqState)
    (v : List ℚ) (hn : st.normalize = true) (h40 : v.length = 40)
    (hnd : max_el v ≠ min_el v) :
    (∀ i : Fin 40, (mkEqualizer curve rOpt).gains i.val = curve.get? i.val) ∧
    (mkEqualizer curve none).range = 1 ∧
    (∀ i : Fin 40, ((setCurve st v).1).gains i.val =
      (v.get? i.val).map
        (fun x => st.range * 5 * normalizeVal (min_el v) (max_el v) x)) := by
  refine ⟨fun i => by simp [mkEqualizer, i.isLt], rfl, fun i => ?_⟩
  rw [setCurve_ok st v hn h40 hnd]
  simp [i.isLt, List.get?_map]
  rfl

/-- C2 witness: the amended statement at a concrete curve and state,
instantiated at band 0. -/
theorem eq_gain_formula_witness :
    (mkEqualizer (List.replicate 40 (0:ℚ)) none).gains 0 =
      (List.replicate 40 (0:ℚ)).get? 0 ∧
    (mkEqualizer (List.replicate 40 (0:ℚ)) none).range = 1 ∧
    ((setCurve (mkEqualizer (List.replicate 40 0) none)
        (List.replicate 39 (0:ℚ) ++ [1])).1).gains 0 =
      ((List.replicate 39 (0:ℚ) ++ [1]).get? 0).map
        (fun x => (mkEqualizer (List.replicate 40 0) none).range * 5 *
          normalizeVal (min_el (List.replicate 39 (0:ℚ) ++ [1]))
            (max_el (List.replicate 39 (0:ℚ) ++ [1])) x) :=
  ⟨(eq_gain_formula (List.replicate 40 0) none
      (mkEqualizer (List.replicate 40 0) none)
      (List.replicate 39 (0:ℚ) ++ [1]) rfl (by decide) (by decide)).1 0,
   (eq_gain_formula (List.replicate 40 0) none
      (mkEqualizer (List.replicate 40 0) none)
      (List.replicate 39 (0:ℚ) ++ [1]) rfl (by decide) (by decide)).2.1,
   (eq_gain_formula (List.replicate 40 0) none
      (mkEqualizer (List.replicate 40 0) none)
      (List.replicate 39 (0:ℚ) ++ [1]) rfl (by decide) (by decide)).2.2 0⟩

/-! ## C3 — range changes and the stored curve

The range setter replays the *already normalized* stored curve through the
curve setter, which re-normalizes it.  When the stored curve does not attain
both `-1` and `1` (which happens exactly when the raw curve misses one of the
fold-in-zero extremes `min_el` / `max_el`), this re-normalization rescales the
stored values, so the gains drift away from a fresh load of the same curve. -/

/-- Raw curve of the C3 counterexample: 39 copies of `-10` and one `-5`.
All values are negative, so `max_el = 0` is not attained; the stored
normalized curve is 39 copies of `-1` and one `0`, which the range setter
rescales to 39 copies of `-1` and one `1`. -/
def v3 : List ℚ := List.replicate 39 (-10) ++ [-5]

/-- Equalizer state after loading `v3` fresh (range 1). -/
def fresh3 : EqState := (setCurve (mkEqualizer (List.replicate 40 0) none) v3).1

/-- C3 counterexample: after loading `v3` and then setting `range = 1` twice,
band 39's gain is `5` dB, while a fresh load of the same curve at the same
range gives `0` dB — repeated range sets drift the stored curve. -/
theorem range_replay_drift_cex :
    (setRange (setRange fresh3 1) 1).gains 39 = some 5 ∧
      fresh3.gains 39 = some 0 := by
  have hv1 : normalizeVal (-10) 0 (-10) = -1 := by norm_num [normalizeVal]
  have hv2 : normalizeVal (-10) 0 (-5) = 0 := by norm_num [normalizeVal]
  have hmap1 : v3.map (normalizeVal (min_el v3) (max_el v3)) =
      List.replicate 39 (-1) ++ [0] := by
    have hmn : min_el v3 = -10 := by decide
    have hmx : max_el v3 = 0 := by decide
    rw [hmn, hmx]
    simp [v3, List.map_replicate, hv1, hv2]
  have hfresh := setCurve_ok (mkEqualizer (List.replicate 40 0) none) v3 rfl
    (by decide) (by decide)
  have hcurve1 : fresh3.curve = List.replicate 39 (-1) ++ [0] := by
    rw [fresh3, hfresh]
    exact hmap1
  have hnorm1 : fresh3.normalize = true := by rw [fresh3, hfresh]; rfl
  have hgain1 : fresh3.gains 39 = some 0 := by
    rw [fresh3, hfresh]
    simp only [hmap1]
    norm_num
  -- first range set: stored curve is rescaled to 39 × (-1) and one 1
  have hw1 : normalizeVal (-1) 0 (-1) = -1 := by norm_num [normalizeVal]
  have hw2 : normalizeVal (-1) 0 0 = 1 := by norm_num [normalizeVal]
  have hmap2 : (List.replicate 39 (-1:ℚ) ++ [0]).map (normalizeVal (-1) 0) =
      List.replicate 39 (-1) ++ [1] := by
    simp [List.map_replicate, hw1, hw2]
  have hstep1 := setRange_ok fresh3 1 hnorm1
    (by rw [hcurve1]; decide) (by rw [hcurve1]; decide)
  have hcurve2 : (setRange fresh3 1).curve = List.replicate 39 (-1) ++ [1] := by
    rw [hstep1]
    show fresh3.curve.map _ = _
    rw [hcurve1]
    have hmn : min_el (List.replicate 39 (-1:ℚ) ++ [0]) = -1 := by decide
    have hmx : max_el (List.replicate 39 (-1:ℚ) ++ [0]) = 0 := by decide
    rw [hmn, hmx, hmap2]
  have hnorm2 : (setRange fresh3 1).normalize = true := by rw [hstep1]; exact hnorm1
  -- second range set: the stored curve now attains both -1 and 1, so it is fixed
  have hw3 : normalizeVal (-1) 1 (-1) = -1 := normalizeVal_neg_one_one (-1)
  have hw4 : normalizeVal (-1) 1 1 = 1 := normalizeVal_neg_one_one 1
  have hstep2 := setRange_ok (setRange fresh3 1) 1 hnorm2
    (by rw [hcurve2]; decide) (by rw [hcurve2]; decide)
  have hgain2 : (setRange (setRange fresh3 1) 1).gains 39 = some 5 := by
    rw [hstep2]
    show (if 39 < 40 then
        (((setRange fresh3 1).curve.map
          (normalizeVal (min_el (setRange fresh3 1).curve)
            (max_el (setRange fresh3 1).curve))).get? 39).map
          (fun c => (1:ℚ) * 5 * c)
      else (setRange fresh3 1).gains 39) = some 5
    rw [hcurve2]
    have hmn : min_el (List.replicate 39 (-1:ℚ) ++ [1]) = -1 := by decide
    have hmx : max_el (List.replicate 39 (-1:ℚ) ++ [1]) = 1 := by decide
    rw [hmn, hmx]
    have hmap3 : (List.replicate 39 (-1:ℚ) ++ [1]).map (normalizeVal (-1) 1) =
        List.replicate 39 (-1) ++ [1] := by
      simp [List.map_replicate, hw3, hw4]
    rw [hmap3]
    norm_num
  exact ⟨hgain2, hgain1⟩

/-- When the stored curve already attains `-1` and `1` (here phrased via
`min_el = -1` and `max_el = 1`), a range set keeps the stored curve fixed and
just recomputes gains at the new range. -/
theorem setRange_stable (st : EqState) (hn : st.normalize = true)
    (h40 : st.curve.length = 40) (hmin : min_el st.curve = -1)
    (hmax : max_el st.curve = 1) (r : ℚ) :
    setRange st r = { st with
      range := r
      gains := fun i => if i < 40
        then (st.curve.get? i).map (fun c => r * 5 * c)
        else st.gains i } := by
  rw [setRange_ok st r hn h40 (by rw [hmin, hmax]; norm_num)]
  rw [hmin, hmax]
  have hid : st.curve.map (normalizeVal (-1) 1) = st.curve := by
    calc st.curve.map (normalizeVal (-1) 1)
        = st.curve.map id :=
          List.map_congr_left (fun a _ => normalizeVal_neg_one_one a)
      _ = st.curve := List.map_id st.curve
  rw [hid]

/-- C3 amended: setting `range = r1` then `range = r2` matches a fresh load
of the same curve at `range = r2` *provided* the raw curve attains the
fold-in-zero extremes `min_el` and `max_el` (in particular whenever it has
both a negative and a positive entry); otherwise the range setter's
re-normalization of the stored curve can drift the gains (see the
counterexample). -/
theorem range_independence_of_attained_extremes (st : EqState) (v : List ℚ)
    (r1 r2 : ℚ) (hn : st.normalize = true) (h40 : v.length = 40)
    (hmnv : min_el v ∈ v) (hmxv : max_el v ∈ v)
    (hnd : max_el v ≠ min_el v) :
    (setRange (setRange (setCurve st v).1 r1) r2).gains =
      (setCurve { st with range := r2 } v).1.gains := by
  set s := v.map (normalizeVal (min_el v) (max_el v)) with hs
  have hbounds := normalizeVal_mem_bounds v hnd
  have hs40 : s.length = 40 := by rw [hs, List.length_map, h40]
  have hm1 : (-1 : ℚ) ∈ s := by
    rw [hs]
    exact List.mem_map.mpr ⟨min_el v, hmnv, normalizeVal_at_min _ _⟩
  have hp1 : (1 : ℚ) ∈ s := by
    rw [hs]
    exact List.mem_map.mpr ⟨max_el v, hmxv, normalizeVal_at_max _ _ hnd⟩
  have hmins : min_el s = -1 :=
    foldl_min_eq_of_mem_bound s 0 (-1) hm1
      (fun x hx => (hbounds x hx).1) (by norm_num)
  have hmaxs : max_el s = 1 :=
    foldl_max_eq_of_mem_bound s 0 1 hp1
      (fun x hx => (hbounds x hx).2) (by norm_num)
  rw [setCurve_ok st v hn h40 hnd, ← hs]
  rw [setCurve_ok { st with range := r2 } v hn h40 hnd, ← hs]
  rw [setRange_stable { st with
      curve := s
      gains := fun i => if i < 40
        then (s.get? i).map (fun c => st.range * 5 * c)
        else st.gains i } hn hs40 hmins hmaxs r1]
  rw [setRange_stable { st with
      curve := s
      range := r1
      gains := fun i => if i < 40
        then (s.get? i).map (fun c => r1 * 5 * c)
        else (if i < 40
          then (s.get? i).map (fun c => st.range * 5 * c)
          else st.gains i) } hn hs40 hmins hmaxs r2]
  funext i
  by_cases hi : i < 40
  · simp [hi]
  · simp [hi]

/-- C3 witness: a curve with both negative and positive entries, ranges
`r1 = 2`, `r2 = 3`. -/
theorem range_independence_witness :
    (setRange (setRange (setCurve (mkEqualizer (List.replicate 40 0) none)
        (List.replicate 20 (-3:ℚ) ++ List.replicate 20 7)).1 2) 3).gains =
      (setCurve { mkEqualizer (List.replicate 40 0) none with range := 3 }
        (List.replicate 20 (-3:ℚ) ++ List.replicate 20 7)).1.gains :=
  range_independence_of_attained_extremes _ _ 2 3 rfl (by decide) (by decide)
    (by decide) (by decide)

/-! ## JS string primitives

JS strings are modelled as `List Char`.  `splitChar` is
`String.prototype.split` with a one-character separator
(`"".split('_') = [""]`, `"a_".split('_') = ["a", ""]`), and `stripExt` is
`path.basename(file, ext)` on a directory-free name (it removes `ext` only
when it is a suffix). -/

def splitChar (sep : Char) : List Char → List (List Char)
  | [] => [[]]
  | c :: cs =>
    match splitChar sep cs with
    | [] => [[]]
    | g :: gs => if c = sep then [] :: g :: gs else (c :: g) :: gs

def stripExt (s ext : List Char) : List Char :=
  if ext.isSuffixOf s then s.take (s.length - ext.length) else s

/-! ## Job Deriver for the EQ pipeline (src/unnamed/part_001)

`eqIdOf` models `path.basename(eqFile, '.json').split('_')[1]`: the *second*
underscore-separated token of the preset file name; a missing index yields
JS `undefined`, which the template literal renders as the string
`"undefined"`. -/

def eqIdOf (eqFile : List Char) : List Char :=
  ((splitChar '_' (stripExt eqFile ".json".data)).get? 1).getD "undefined".data

/-- The derived output id, `eq_` ++ eqId ++ `/` ++ audioName
(part_001 line 43). -/
def eqOutputId (audioFile eqFile : List Char) : List Char :=
  "eq_".data ++ eqIdOf eqFile ++ "/".data ++ stripExt audioFile ".wav".data

/-- One entry of `processingData` (part_001 lines 38-44). -/
structure EqJob where
  audioFile : List Char
  eqId : List Char
  eqParams : List ℚ
  outputId : List Char
deriving DecidableEq

def mkEqJob (paramsOf : List Char → List ℚ) (audioFile eqFile : List Char) :
    EqJob :=
  { audioFile := "/audio/".data ++ audioFile
    eqId := eqIdOf eqFile
    eqParams := paramsOf eqFile
    outputId := eqOutputId audioFile eqFile }

/-- The nested derivation loop of part_001 (lines 22-46): for each audio file
and each preset file, either record the output path as skipped when the
artifact already exists (`fs.existsSync` modelled by `existsArtifact` on the
artifact path `outputId + ".wav"`), or push the job.  File names are taken
directory-free, so `path.basename` reduces to suffix stripping.  Returns
`(processingData, skippedFiles)`. -/
def deriveEqJobs (audioFiles eqFiles : List (List Char))
    (paramsOf : List Char → List ℚ) (existsArtifact : List Char → Bool) :
    List EqJob × List (List Char) :=
  audioFiles.foldl (fun acc audioFile =>
    eqFiles.foldl (fun acc2 eqFile =>
      if existsArtifact (eqOutputId audioFile eqFile ++ ".wav".data) then
        (acc2.1, acc2.2 ++ [eqOutputId audioFile eqFile ++ ".wav".data])
      else
        (acc2.1 ++ [mkEqJob paramsOf audioFile eqFile], acc2.2)) acc) ([], [])

/-! ### Fold characterizations of the derivation loops -/

theorem foldl_push_eq_append_map {α β σ : Type} (f : α → β) (l : List α)
    (acc : List β × σ)
    : l.foldl (fun a2 x => (a2.1 ++ [f x], a2.2)) acc =
      (acc.1 ++ l.map f, acc.2) := by
  induction l generalizing acc with
  | nil => simp
  | cons x xs ih =>
    rw [List.foldl_cons, ih]
    simp

theorem foldl_push_eq_append_flatMap {α β σ : Type} (g : α → List β)
    (l : List α) (acc : List β × σ) :
    l.foldl (fun a x => (a.1 ++ g x, a.2)) acc = (acc.1 ++ l.flatMap g, acc.2) := by
  induction l generalizing acc with
  | nil => simp
  | cons x xs ih =>
    rw [List.foldl_cons, ih]
    simp

/-- With no pre-existing artifacts the derivation loop is exactly the ordered
cartesian product. -/
theorem deriveEqJobs_no_artifacts (audioFiles eqFiles : List (List Char))
    (paramsOf : List Char → List ℚ) :
    deriveEqJobs audioFiles eqFiles paramsOf (fun _ => false) =
      (audioFiles.flatMap (fun a => eqFiles.map (mkEqJob paramsOf a)), []) := by
  show audioFiles.foldl (fun acc a =>
      eqFiles.foldl (fun acc2 e => (acc2.1 ++ [mkEqJob paramsOf a e], acc2.2)) acc)
      ([], []) =
    (audioFiles.flatMap (fun a => eqFiles.map (mkEqJob paramsOf a)), [])
  rw [show (fun (acc : List EqJob × List (List Char)) a =>
      eqFiles.foldl (fun acc2 e => (acc2.1 ++ [mkEqJob paramsOf a e], acc2.2)) acc)
    = fun acc a => (acc.1 ++ eqFiles.map (mkEqJob paramsOf a), acc.2) from
    funext fun acc => funext fun a =>
      foldl_push_eq_append_map (mkEqJob paramsOf a) eqFiles acc]
  rw [foldl_push_eq_append_flatMap (fun a => eqFiles.map (mkEqJob paramsOf a))
    audioFiles ([], [])]
  simp

/-- Splitting a concatenation at a separator absent from both left parts:
`l1 ++ '/' :: r1 = l2 ++ '/' :: r2` forces `l1 = l2` and `r1 = r2`. -/
theorem append_sep_inj (sep : Char) :
    ∀ (l1 l2 r1 r2 : List Char), sep ∉ l1 → sep ∉ l2 →
      l1 ++ sep :: r1 = l2 ++ sep :: r2 → l1 = l2 ∧ r1 = r2 := by
  intro l1
  induction l1 with
  | nil =>
    intro r1 l2 r2 h1 h2 h
    cases r1 with
    | nil => simpa using h
    | cons c cs =>
      exfalso
      simp only [List.nil_append, List.cons_append, List.cons.injEq] at h
      exact h2 (h.1 ▸ List.mem_cons_self c cs)
  | cons c cs ih =>
    intro r1 l2 r2 h1 h2 h
    cases r1 with
    | nil =>
      exfalso
      simp only [List.nil_append, List.cons_append, List.cons.injEq] at h
      exact h1 (h.1.symm ▸ List.mem_cons_self c cs)
    | cons d ds =>
      simp only [List.cons_append, List.cons.injEq] at h
      obtain ⟨rfl, htail⟩ := h
      obtain ⟨he, hr⟩ := ih ds l2 r2
        (fun hm => h1 (List.mem_cons_of_mem _ hm))
        (fun hm => h2 (List.mem_cons_of_mem _ hm)) htail
      exact ⟨by rw [he], hr⟩

/-- On a list whose image under `f` is pairwise distinct, `f` is injective on
members. -/
theorem map_pairwise_ne_inj {α β : Type} (f : α → β) :
    ∀ (l : List α), (l.map f).Pairwise (· ≠ ·) →
      ∀ x ∈ l, ∀ y ∈ l, f x = f y → x = y := by
  intro l
  induction l with
  | nil => intro _ x hx; cases hx
  | cons a as ih =>
    intro hp x hx y hy hf
    rw [List.map_cons, List.pairwise_cons] at hp
    rcases List.mem_cons.mp hx with rfl | hx' <;>
      rcases List.mem_cons.mp hy with rfl | hy'
    · rfl
    · exact absurd hf (hp.1 (f y) (List.mem_map_of_mem f hy'))
    · exact absurd hf.symm (hp.1 (f x) (List.mem_map_of_mem f hx'))
    · exact ih hp.2 x hx' y hy' hf

/-! ## C6 — derived job list and output identity

The EQ deriver builds the ordered cartesian product (minus derive-time
skips), but `outputId` is built from the *second underscore token* of the
preset file name (`split('_')[1]`), so two distinct preset files whose names
agree on that token collide. -/

/-- C6 counterexample: the two distinct preset files `a_1.json` and
`b_1.json` both extract id `1`, so with source `song.wav` both derived jobs
carry the same `outputId = "eq_1/song"` — `outputId` is not injective across
distinct preset files. -/
theorem eq_outputId_collision_cex :
    ((deriveEqJobs ["song.wav".data] ["a_1.json".data, "b_1.json".data]
        (fun _ => []) (fun _ => false)).1.map EqJob.outputId) =
      ["eq_1/song".data, "eq_1/song".data] ∧
    "a_1.json".data ≠ "b_1.json".data := by
  constructor
  · decide
  · decide

/-- C6 amended: with no pre-existing artifacts the derived job list is
exactly the ordered cartesian product of sources × presets (and derivation is
a pure function of its inputs, so trivially identical across invocations);
`outputId = "eq_" ++ id ++ "/" ++ name` is injective *provided* distinct
preset files extract distinct `split('_')[1]` ids, distinct sources have
distinct basenames, and the extracted ids contain no `'/'`. -/
theorem deriveEqJobs_product_and_identity (audioFiles eqFiles : List (List Char))
    (paramsOf : List Char → List ℚ)
    (hA : (audioFiles.map (fun a => stripExt a ".wav".data)).Pairwise (· ≠ ·))
    (hE : (eqFiles.map eqIdOf).Pairwise (· ≠ ·))
    (hEs : ∀ e ∈ eqFiles, '/' ∉ eqIdOf e) :
    (deriveEqJobs audioFiles eqFiles paramsOf (fun _ => false)).1 =
      audioFiles.flatMap (fun a => eqFiles.map (mkEqJob paramsOf a)) ∧
    (∀ a1 ∈ audioFiles, ∀ a2 ∈ audioFiles, ∀ e1 ∈ eqFiles, ∀ e2 ∈ eqFiles,
      eqOutputId a1 e1 = eqOutputId a2 e2 → a1 = a2 ∧ e1 = e2) := by
  constructor
  · rw [deriveEqJobs_no_artifacts]
  · intro a1 ha1 a2 ha2 e1 he1 e2 he2 h
    have hsplit : eqIdOf e1 = eqIdOf e2 ∧
        stripExt a1 ".wav".data = stripExt a2 ".wav".data := by
      unfold eqOutputId at h
      have h'' : "eq_".data ++ (eqIdOf e1 ++ '/' :: stripExt a1 ".wav".data) =
          "eq_".data ++ (eqIdOf e2 ++ '/' :: stripExt a2 ".wav".data) := by
        have hassoc := h
        simp only [List.append_assoc] at hassoc
        exact hassoc
      have h' : eqIdOf e1 ++ '/' :: stripExt a1 ".wav".data =
          eqIdOf e2 ++ '/' :: stripExt a2 ".wav".data :=
        List.append_cancel_left h''
      exact append_sep_inj '/' (eqIdOf e1) (eqIdOf e2)
        (stripExt a1 ".wav".data) (stripExt a2 ".wav".data)
        (hEs e1 he1) (hEs e2 he2) h'
    refine ⟨?_, ?_⟩
    · exact map_pairwise_ne_inj (fun a => stripExt a ".wav".data) audioFiles hA
        a1 ha1 a2 ha2 hsplit.2
    · exact map_pairwise_ne_inj eqIdOf eqFiles hE e1 he1 e2 he2 hsplit.1

/-- C6 witness: two sources, two well-formed preset files; the injectivity
part instantiated at equal pairs. -/
theorem deriveEqJobs_product_and_identity_witness :
    ((deriveEqJobs ["drums.wav".data, "piano.wav".data]
        ["eq_1.json".data, "eq_2.json".data] (fun _ => [])
        (fun _ => false)).1 =
      ["drums.wav".data, "piano.wav".data].flatMap
        (fun a => ["eq_1.json".data, "eq_2.json".data].map
          (mkEqJob (fun _ => []) a))) ∧
    ("drums.wav".data = "drums.wav".data ∧
      "eq_1.json".data = "eq_1.json".data) :=
  ⟨(deriveEqJobs_product_and_identity
      ["drums.wav".data, "piano.wav".data]
      ["eq_1.json".data, "eq_2.json".data] (fun _ => [])
      (by decide) (by decide) (by decide)).1,
   (deriveEqJobs_product_and_identity
      ["drums.wav".data, "piano.wav".data]
      ["eq_1.json".data, "eq_2.json".data] (fun _ => [])
      (by decide) (by decide) (by decide)).2
     "drums.wav".data (by decide) "drums.wav".data (by decide)
     "eq_1.json".data (by decide) "eq_1.json".data (by decide) rfl⟩

/-! ## C4 — second run over fully rendered artifacts (EQ pipeline)

The EQ html renderer's `processBatch` (part_002 lines 171-184) only ever
emits the completion signal inside the save callback (`saveToServer`, lines
144-153): after a successful save it checks `completedJobs >= totalJobs` and
POSTs `/complete`.  There is no post-loop completion check (unlike the reverb
variant).  The model serializes the per-wave `Promise.all` since only the
counters and the completion signal are at stake; each job performs one render
(`startRendering`), increments `completedJobs`, and runs the save callback's
completion check. -/

structure BatchOutcome where
  renders : ℕ
  completedJobs : ℕ
  totalJobs : ℕ
  completionSignaled : Bool
deriving DecidableEq

def processBatchEq (jobs : List EqJob) : BatchOutcome :=
  jobs.foldl (fun st _ =>
    let c := st.completedJobs + 1
    { st with
        renders := st.renders + 1
        completedJobs := c
        completionSignaled := st.completionSignaled || (st.totalJobs ≤ c) })
    { renders := 0, completedJobs := 0, totalJobs := jobs.length,
      completionSignaled := false }

/-- C4 evaluation at the failing input: 3 sources × 4 presets, all 12
artifacts already present.  The deriver skips all 12 at derive time
(0 jobs, 12 skip entries) and the renderer performs 0 renders — but the
completion signal is never emitted, because `processBatch` of the EQ variant
signals only from inside a save callback and no save ever runs.  The claim's
"signals completion immediately" fails. -/
theorem second_run_no_completion_signal :
    (deriveEqJobs ["a.wav".data, "b.wav".data, "c.wav".data]
        ["eq_1.json".data, "eq_2.json".data, "eq_3.json".data, "eq_4.json".data]
        (fun _ => []) (fun _ => true)).1 = [] ∧
    (deriveEqJobs ["a.wav".data, "b.wav".data, "c.wav".data]
        ["eq_1.json".data, "eq_2.json".data, "eq_3.json".data, "eq_4.json".data]
        (fun _ => []) (fun _ => true)).2.length = 12 ∧
    processBatchEq (deriveEqJobs ["a.wav".data, "b.wav".data, "c.wav".data]
        ["eq_1.json".data, "eq_2.json".data, "eq_3.json".data, "eq_4.json".data]
        (fun _ => []) (fun _ => true)).1 =
      { renders := 0, completedJobs := 0, totalJobs := 0,
        completionSignaled := false } := by
  refine ⟨by decide, by decide, by decide⟩

/-! ## Reverb pipeline (src/unnamed/part_000, process_audio.html) -/

/-- The reverb preset id: `path.basename(reverbFile, '.json').split('_')[1]`
(part_000 line 20). -/
def reverbIdOf (reverbFile : List Char) : List Char :=
  ((splitChar '_' (stripExt reverbFile ".json".data)).get? 1).getD
    "undefined".data

/-- One entry of the reverb `processingData` (part_000 lines 24-30). -/
structure RevJob where
  audioFile : List Char
  reverbParams : List ℚ
  outputId : List Char
deriving DecidableEq

/-- The reverb derivation loop (part_000 lines 19-31): one audio file ×
all preset files, `outputId = `reverb_${reverbId}/${audioName}``. -/
def deriveReverbJobs (audioFile : List Char) (reverbFiles : List (List Char))
    (paramsOf : List Char → List ℚ) : List RevJob :=
  reverbFiles.foldl (fun acc f =>
    acc ++ [{ audioFile := "/audio/".data ++ audioFile
              reverbParams := paramsOf f
              outputId := "reverb_".data ++ reverbIdOf f ++ "/".data ++
                stripExt audioFile ".wav".data }]) []

/-- The probe wrapper `checkFileExists` (process_audio.html lines 181-193):
queries
`/check-file`; on *any* error the `catch` logs to the console and returns
`false`.  The probe is modelled as a function returning `Except Unit Bool`
(`error` = the fetch/parse failed, e.g. storage unreachable). -/
def checkFileExists (probe : List Char → Except Unit Bool)
    (id : List Char) : Bool :=
  match probe id with
  | .ok b => b
  | .error _ => false

/-- The per-wave partition of `processBatch` (process_audio.html lines
210-222): each job whose probe answers `true` is pushed onto `skippedFiles`;
every other job — including those whose probe *failed* — is pushed onto
`jobsToProcess` and dispatched to `processAudio`. -/
def partitionWave (probe : List Char → Except Unit Bool)
    (batch : List RevJob) : List RevJob × List (List Char) :=
  batch.foldl (fun acc job =>
    if checkFileExists probe job.outputId then (acc.1, acc.2 ++ [job.outputId])
    else (acc.1 ++ [job], acc.2)) ([], [])

/-- Filter characterization of the wave partition. -/
theorem partitionWave_eq (probe : List Char → Except Unit Bool)
    (batch : List RevJob) :
    partitionWave probe batch =
      (batch.filter (fun j => !(checkFileExists probe j.outputId)),
       (batch.filter (fun j => checkFileExists probe j.outputId)).map
         RevJob.outputId) := by
  unfold partitionWave
  have haux : ∀ (l : List RevJob) (acc : List RevJob × List (List Char)),
      l.foldl (fun acc job =>
        if checkFileExists probe job.outputId then
          (acc.1, acc.2 ++ [job.outputId])
        else (acc.1 ++ [job], acc.2)) acc =
      (acc.1 ++ l.filter (fun j => !(checkFileExists probe j.outputId)),
       acc.2 ++ (l.filter (fun j => checkFileExists probe j.outputId)).map
         RevJob.outputId) := by
    intro l
    induction l with
    | nil => intro acc; simp
    | cons j js ih =>
      intro acc
      rw [List.foldl_cons]
      by_cases hc : checkFileExists probe j.outputId
      · rw [if_pos hc, ih]
        simp [List.filter_cons, hc]
      · rw [if_neg hc, ih]
        simp [List.filter_cons, hc]
  rw [haux batch ([], [])]
  simp

/-! ## C5 — a failed idempotency probe -/

/-- A probe that always fails (storage unreachable). -/
def failingProbe : List Char → Except Unit Bool := fun _ => .error ()

/-- The job used in the C5 counterexample and witness. -/
def c5job : RevJob :=
  { audioFile := "/audio/drums.wav".data
    reverbParams := []
    outputId := "reverb_1/drums".data }

/-- C5 counterexample: when the probe itself fails, `checkFileExists`
returns `false` — indistinguishable from "artifact does not exist" — and the
job lands in `jobsToProcess`, i.e. it *is* dispatched for rendering, contrary
to the claim. -/
theorem probe_error_dispatches_cex :
    checkFileExists failingProbe c5job.outputId = false ∧
    (partitionWave failingProbe [c5job]).1 = [c5job] := by
  constructor
  · decide
  · decide

/-- C5 amended: a failed probe is caught, logged to the console only, and
silently coerced to `false`; the affected job is therefore treated exactly as
"artifact does not exist" and dispatched for rendering (no per-job error is
recorded). -/
theorem probe_error_job_dispatched (probe : List Char → Except Unit Bool)
    (batch : List RevJob) (job : RevJob) (hj : job ∈ batch)
    (he : probe job.outputId = .error ()) :
    checkFileExists probe job.outputId = false ∧
    job ∈ (partitionWave probe batch).1 := by
  have hfalse : checkFileExists probe job.outputId = false := by
    unfold checkFileExists
    rw [he]
  refine ⟨hfalse, ?_⟩
  rw [partitionWave_eq]
  exact List.mem_filter.mpr ⟨hj, by rw [hfalse]; rfl⟩

/-- C5 witness: the failing probe on a one-job wave. -/
theorem probe_error_job_dispatched_witness :
    checkFileExists failingProbe c5job.outputId = false ∧
    c5job ∈ (partitionWave failingProbe [c5job]).1 :=
  probe_error_job_dispatched failingProbe [c5job] c5job (by decide) rfl

/-! ## C9 — the preset-descriptor sidecar of `/save`

The file `server.js` (audealize_reverb, lines 74-83) computes
`reverbId = id.split('_').pop()` and copies
`reverbDir/reverb_<reverbId>.json` next to the artifact — but only `if
(fs.existsSync(reverbSourcePath))`, silently skipping otherwise.  For every
outputId the pipeline actually produces (`"reverb_<id>/<audioName>"`), the
popped token is `"<id>/<audioName>"`, so the looked-up file
`reverb_<id>/<audioName>.json` never exists and no sidecar is written. -/

/-- The preset file `/save` looks for: `reverb_` ++ `id.split('_').pop()` ++
`.json`. -/
def saveSidecarSource (id : List Char) : List Char :=
  "reverb_".data ++ ((splitChar '_' id).getLast?.getD []) ++ ".json".data

/-- The sidecar copy of `/save`: returns the destination path when the copy
happens (`some (id ++ "_reverb_info.json")`), `none` when the source file is
missing and the copy is silently skipped. -/
def saveSidecar (presetDirHas : List Char → Bool) (id : List Char) :
    Option (List Char) :=
  if presetDirHas (saveSidecarSource id) then
    some (id ++ "_reverb_info.json".data)
  else none

/-- C9 evaluation at the failing input: the pipeline derives
`outputId = "reverb_5/drums"` for preset file `reverb_5.json` and source
`drums.wav`; at save time the server pops `"5/drums"` and looks for
`reverb_5/drums.json`, which is not in the preset catalog — so the sidecar
copy is silently skipped and the persisted artifact has no colocated preset
descriptor. -/
theorem save_sidecar_never_written_eval :
    ((deriveReverbJobs "drums.wav".data ["reverb_5.json".data]
        (fun _ => [])).map RevJob.outputId = ["reverb_5/drums".data]) ∧
    saveSidecarSource "reverb_5/drums".data = "reverb_5/drums.json".data ∧
    saveSidecar (fun s => decide (s = "reverb_5.json".data))
      "reverb_5/drums".data = none := by
  refine ⟨by decide, by decide, by decide⟩

/-! ## C10 — the WAV encoder `bufferToWave`

The encoder (process_audio.html lines 93-127, identically part_002 lines
83-116) allocates `44 + length` bytes with
`length = abuffer.length * numOfChan * 2` and writes one little-endian
int16 per (channel, frame) at byte index `44 + (j*numOfChan + i)*2`, where
the sample is first clamped to `[-1, 1]` and scaled by `0x8000` (negative)
or `0x7FFF` (non-negative); `DataView.setInt16` truncates the scaled value
toward zero. -/

structure AudioBufferModel where
  numberOfChannels : ℕ
  frames : ℕ
  sampleRate : ℕ
  channelData : ℕ → ℕ → ℚ

/-- The clamp `Math.max(-1, Math.min(1, sample))`. -/
def clampSample (x : ℚ) : ℚ := max (-1) (min 1 x)

/-- ECMAScript ToIntegerOrInfinity: truncation toward zero. -/
def jsTrunc (q : ℚ) : ℤ := if q < 0 then -⌊-q⌋ else ⌊q⌋

/-- The scaling `sample < 0 ? sample * 0x8000 : sample * 0x7FFF`, followed by
the integer conversion of `setInt16`. -/
def toInt16 (x : ℚ) : ℤ :=
  let s := clampSample x
  if s < 0 then jsTrunc (s * 32768) else jsTrunc (s * 32767)

/-- The encoder result: the allocated byte length and the list of
`(byte index, int16 value)` writes of the data section, in write order. -/
structure WavEncoding where
  byteLength : ℕ
  dataWrites : List (ℕ × ℤ)

def bufferToWave (ab : AudioBufferModel) : WavEncoding :=
  { byteLength := 44 + ab.frames * ab.numberOfChannels * 2
    dataWrites := (List.range ab.numberOfChannels).flatMap (fun i =>
      (List.range ab.frames).map (fun j =>
        (44 + (j * ab.numberOfChannels + i) * 2,
         toInt16 (ab.channelData i j)))) }

theorem clampSample_bounds (x : ℚ) :
    -1 ≤ clampSample x ∧ clampSample x ≤ 1 :=
  ⟨le_max_left _ _, max_le (by norm_num) (min_le_left _ _)⟩

theorem toInt16_bounds (x : ℚ) : -32768 ≤ toInt16 x ∧ toInt16 x ≤ 32767 := by
  obtain ⟨hlo, hhi⟩ := clampSample_bounds x
  unfold toInt16 jsTrunc
  set s := clampSample x with hs
  by_cases hneg : s < 0
  · have hv1 : (-32768 : ℚ) ≤ s * 32768 := by nlinarith
    have hv2 : s * 32768 < 0 := by nlinarith
    rw [if_pos hneg]
    rw [if_pos hv2]
    constructor
    · have : ⌊-(s * 32768)⌋ ≤ 32768 := by
        have : -(s * 32768) ≤ (32768 : ℚ) := by linarith
        calc ⌊-(s * 32768)⌋ ≤ ⌊(32768 : ℚ)⌋ := Int.floor_le_floor this
          _ = 32768 := by norm_num
      omega
    · have : 0 ≤ ⌊-(s * 32768)⌋ := Int.floor_nonneg.mpr (by linarith)
      omega
  · have h0 : 0 ≤ s := le_of_not_lt hneg
    have hv1 : (0 : ℚ) ≤ s * 32767 := by nlinarith
    have hv2 : s * 32767 ≤ 32767 := by nlinarith
    rw [if_neg hneg]
    rw [if_neg (by linarith : ¬ s * 32767 < 0)]
    constructor
    · have : 0 ≤ ⌊s * 32767⌋ := Int.floor_nonneg.mpr hv1
      omega
    · calc ⌊s * 32767⌋ ≤ ⌊(32767 : ℚ)⌋ := Int.floor_le_floor hv2
        _ = 32767 := by norm_num

/-- C10: for every audio buffer with `C` channels and `F` frames, the encoder
allocates exactly `44 + 2·C·F` bytes, and every int16 value written in the
data section lies in `[-32768, 32767]` (samples are clamped to `[-1, 1]`
before scaling by `0x8000` / `0x7FFF`). -/
theorem bufferToWave_spec (ab : AudioBufferModel) :
    (bufferToWave ab).byteLength =
      44 + 2 * ab.numberOfChannels * ab.frames ∧
    ∀ w ∈ (bufferToWave ab).dataWrites, -32768 ≤ w.2 ∧ w.2 ≤ 32767 := by
  constructor
  · show 44 + ab.frames * ab.numberOfChannels * 2 = _
    ring
  · intro w hw
    simp only [bufferToWave, List.mem_flatMap, List.mem_map] at hw
    obtain ⟨i, _, j, _, rfl⟩ := hw
    exact toInt16_bounds _

/-- Concrete buffer for the C10 witness: 1 channel, 1 frame, constant
sample 1/2. -/
def wavAb : AudioBufferModel :=
  { numberOfChannels := 1, frames := 1, sampleRate := 8000,
    channelData := fun _ _ => 1/2 }

/-- C10 witness: the encoder bounds at a concrete one-sample buffer. -/
theorem bufferToWave_spec_witness :
    (bufferToWave wavAb).byteLength = 44 + 2 * 1 * 1 ∧
    (-32768 ≤ toInt16 (wavAb.channelData 0 0) ∧
      toInt16 (wavAb.channelData 0 0) ≤ 32767) :=
  ⟨(bufferToWave_spec wavAb).1,
   (bufferToWave_spec wavAb).2
     (44 + (0 * 1 + 0) * 2, toInt16 (wavAb.channelData 0 0))
     (List.mem_singleton.mpr rfl)⟩

end FxProcessor
